import Mathlib

/-!
Shallow embedding of the Chebyshev filter EDA repository
(filter_core.py, cauer_synthesis.py, chebyshev_filter.py).

Polynomials are lists of coefficients in descending powers of s.
Rational numbers stand in for Python floats on the Cauer side; the
tolerance 1e-10 is taken as the exact rational 1/10^10.  Division by
zero in a field yields 0 in Lean; every executed branch of the source
that divides is guarded by the source's own zero tests, except the
final unguarded `num_current[1] / den_current[0]` step, where the
difference is irrelevant to the properties proved here.  Python
exceptions and out-of-range list indexing are modelled with Option.
-/

/-- Tolerance used by `_remove_leading_zeros` (cauer_synthesis.py line 128). -/
def trimTol : ℚ := 1 / 10 ^ 10

/-- `CauerSynthesis._remove_leading_zeros` (cauer_synthesis.py lines 120-132).
`start_idx` is initialised to 0 and set to the first index whose coefficient
exceeds the tolerance; when no coefficient does, it stays 0, so the `[0]`
fallback branch (which requires `start_idx ≥ len(poly)`) is unreachable. -/
def removeLeadingZeros (poly : List ℚ) : List ℚ :=
  if poly.length = 0 then poly
  else
    let start_idx := (poly.findIdx? (fun c => decide (trimTol < |c|))).getD 0
    if start_idx < poly.length then poly.drop start_idx else [0]

/-- `CauerSynthesis._is_suitable_for_cauer` (cauer_synthesis.py lines 111-118):
on real (here: rational) coefficient lists the `np.isreal` checks always
succeed. -/
def isSuitableForCauer (_num _den : List ℚ) : Bool := true

/-- The initial step of `CauerSynthesis.cauer_synthesis`
(cauer_synthesis.py lines 37-51).  `den_s` is the denominator with a zero
prepended; its head is therefore the prepended 0, so the guarded division
takes its `else 0` branch.  `none` models the early `return [], []`.
The result is the updated `(num_current, den_current, kn_values)`. -/
def initialStep (num den : List ℚ) : Option (List ℚ × List ℚ × List ℚ) :=
  let den_s := (0 : ℚ) :: den
  if num.length = den_s.length then
    let k := if den_s.headI ≠ 0 then num.headI / den_s.headI else 0
    if k < 0 then none
    else
      some (den,
        removeLeadingZeros
          (List.zipWith (fun a b => a - b) den (den_s.tail.map (fun x => k * x))),
        [k])
  else some (num, den, [])

/-- Outcome of the continued-fraction loop: an early abort (the source
returns `[], []`) or the final `num_current`, `den_current`, `kn_values`. -/
inductive CauerStep where
  | aborted : CauerStep
  | finished (num_c den_c kn : List ℚ) : CauerStep

/-- The `while len(den_current) > 1` loop of `CauerSynthesis.cauer_synthesis`
(cauer_synthesis.py lines 54-86), with explicit fuel; the fuel chosen in
`cauerKn` exceeds the number of iterations of every terminating run used
below.  In the odd-parity branch the freshly built `den_s` again starts with
the prepended zero, so its guarded body never runs, exactly as in the
source. -/
def cauerLoop : ℕ → ℕ → List ℚ → List ℚ → List ℚ → CauerStep
  | 0, _, num_c, den_c, kn => .finished num_c den_c kn
  | fuel + 1, iteration, num_c, den_c, kn =>
    if 1 < den_c.length then
      let it := iteration + 1
      if num_c.length = den_c.length ∧ it % 2 = 0 then
        if den_c.headI ≠ 0 then
          let q := num_c.headI / den_c.headI
          if q < 0 then .aborted
          else
            cauerLoop fuel it den_c
              (removeLeadingZeros
                (List.zipWith (fun a b => a - b) num_c (den_c.map (fun x => q * x))))
              (kn ++ [q])
        else cauerLoop fuel it num_c den_c kn
      else if num_c.length = den_c.length + 1 ∧ it % 2 = 1 then
        let den_s := (0 : ℚ) :: den_c
        if 0 < den_s.length ∧ den_s.headI ≠ 0 then
          let k := num_c.headI / den_s.headI
          if k < 0 then .aborted
          else
            cauerLoop fuel it den_c
              (removeLeadingZeros
                (List.zipWith (fun a b => a - b) den_c (den_s.tail.map (fun x => k * x))))
              (kn ++ [k])
        else cauerLoop fuel it num_c den_c kn
      else .finished num_c den_c kn
    else .finished num_c den_c kn

/-- The post-loop final extraction (cauer_synthesis.py lines 88-93). -/
def finalSteps (num_c den_c kn : List ℚ) : List ℚ :=
  if den_c.length = 1 ∧ 1 ≤ num_c.length then
    let kn1 := if den_c.headI ≠ 0 then kn ++ [num_c.headI / den_c.headI] else kn
    if 1 < num_c.length then kn1 ++ [num_c.getD 1 0 / den_c.headI] else kn1
  else kn

/-- Coefficient accumulation of `CauerSynthesis.cauer_synthesis`
(cauer_synthesis.py lines 11-93): `none` models every early `return [], []`
path (unsuitable input, or a negative division result). -/
def cauerKn (num den : List ℚ) : Option (List ℚ) :=
  if isSuitableForCauer num den then
    match initialStep num den with
    | none => none
    | some (num1, den1, kn1) =>
      match cauerLoop (2 * (num.length + den.length) + 8) 1 num1 den1 kn1 with
      | .aborted => none
      | .finished num_f den_f kn_f => some (finalSteps num_f den_f kn_f)
  else none

/-- The parity partition with the negative-value skip
(cauer_synthesis.py lines 95-107); `i` is the position in `kn_values`. -/
def partitionLC : ℕ → List ℚ → List ℚ × List ℚ
  | _, [] => ([], [])
  | i, k :: rest =>
    if k < 0 then partitionLC (i + 1) rest
    else if i % 2 = 0 then
      (k :: (partitionLC (i + 1) rest).1, (partitionLC (i + 1) rest).2)
    else ((partitionLC (i + 1) rest).1, k :: (partitionLC (i + 1) rest).2)

/-- `CauerSynthesis.cauer_synthesis` end to end: the returned
(inductor-list, capacitor-list) pair. -/
def cauerSynthesis (num den : List ℚ) : List ℚ × List ℚ :=
  match cauerKn num den with
  | none => ([], [])
  | some kn => partitionLC 0 kn

/-- Modelled from the spec: sections 3 (LadderNetwork) and 6 say the ladder
values are denormalized by multiplying inductor values by `RL_denorm` and
dividing capacitor values by `RL_denorm`.  Stated from the spec's words for
comparison with the source's `cauerSynthesis`, which applies no scaling. -/
def partitionLCDenormSpec (RL : ℚ) (kn : List ℚ) : List ℚ × List ℚ :=
  ((partitionLC 0 kn).1.map (fun x => x * RL),
   (partitionLC 0 kn).2.map (fun x => x / RL))

/-- The left-half-plane root selection of
`ChebyshevCore.design_without_dc_drop` (filter_core.py lines 107, 114, 132):
roots are modelled as (re, im) pairs of rationals; the source keeps the
roots with `sp.re(p) < 0` and slices the result with `[:M]`.  The symbolic
solver's output is the abstract input `roots`. -/
def selectLHPoles (roots : List (ℚ × ℚ)) (M : ℕ) : List (ℚ × ℚ) :=
  (roots.filter (fun p => decide (p.1 < 0))).take M

/-- The Chebyshev polynomial of order `n` by the three-term recurrence
T_0 = 1, T_1 = w, T_n = 2 w T_(n-1) - T_(n-2); the spec's reference
definition, as a function on ℚ. -/
def chebT : ℕ → ℚ → ℚ
  | 0, _ => 1
  | 1, w => w
  | n + 2, w => 2 * w * chebT (n + 1) w - chebT n w

/-- The `while 2**k <= n` prefill loop of
`ChebyshevCore._generate_chebyshev_poly` (filter_core.py lines 162-165).
Each pass reads `T[2**(k-1)]`; an out-of-range read is Python's
`IndexError`, modelled as `none`.  Fuel bounds the iteration count; the
callers below supply more fuel than any run can use. -/
def chebPrefill : ℕ → ℕ → ℕ → List (ℚ → ℚ) → Option (List (ℚ → ℚ))
  | 0, _, _, T => some T
  | fuel + 1, n, k, T =>
    if 2 ^ k ≤ n then
      match T.get? (2 ^ (k - 1)) with
      | none => none
      | some t => chebPrefill fuel n (k + 1) (T ++ [fun w => 2 * (t w) ^ 2 - 1])
    else some T

/-- The `for i in range(len(T), n + 1)` recurrence loop of
`ChebyshevCore._generate_chebyshev_poly` (filter_core.py lines 168-170). -/
def chebRecur : List (ℚ → ℚ) → List ℕ → Option (List (ℚ → ℚ))
  | T, [] => some T
  | T, i :: rest =>
    if 3 < i then
      match T.get? (i - 1), T.get? (i - 2) with
      | some t1, some t2 => chebRecur (T ++ [fun w => 2 * w * t1 w - t2 w]) rest
      | _, _ => none
    else chebRecur T rest

/-- `ChebyshevCore._generate_chebyshev_poly` (filter_core.py lines 147-172).
Sympy expressions in `w` are modelled as functions ℚ → ℚ; `none` models an
uncaught `IndexError`. -/
def generateChebyshevPoly (n : ℕ) : Option (ℚ → ℚ) :=
  if n = 0 then some (fun _ => 1)
  else if n = 1 then some (fun w => w)
  else if n = 2 then some (fun w => 2 * w ^ 2 - 1)
  else if n = 3 then some (fun w => 4 * w ^ 3 - 3 * w)
  else
    match chebPrefill (n + 2) n 2 [fun _ => 1, fun w => w] with
    | none => none
    | some T1 =>
      match chebRecur T1 (List.range' T1.length (n + 1 - T1.length)) with
      | none => none
      | some T2 => T2.get? n

/-- The two design paths of `main` (chebyshev_filter.py lines 46-50). -/
inductive DesignPath where
  | withDcDrop : DesignPath
  | withoutDcDrop : DesignPath
deriving DecidableEq

/-- The routing in `main` (chebyshev_filter.py lines 46-50): `dc` is the
integer answer to the DC-drop-free prompt (1 = yes, 0 = no); the closed-form
path runs whenever `dc == 0 or N % 2 != 0`. -/
def routeDesign (dc : ℤ) (N : ℕ) : DesignPath :=
  if dc = 0 ∨ N % 2 ≠ 0 then .withDcDrop else .withoutDcDrop

/-- Error taxonomy of the spec (section 7); `domainError` stands for the
`ValueError` the source raises for an odd-N DC-drop-free request. -/
inductive FilterError where
  | domainError : FilterError
deriving DecidableEq

/-- The odd-N guard at the top of `ChebyshevCore.design_without_dc_drop`
(filter_core.py lines 90-91). -/
def withoutDcDropGuard (N : ℕ) : Except FilterError Unit :=
  if N % 2 ≠ 0 then .error .domainError else .ok ()

/-- `a = sinh(1/M * asinh(1/e))` (filter_core.py lines 43, 45, 69). -/
noncomputable def chebA (e : ℝ) (M : ℕ) : ℝ :=
  Real.sinh (1 / (M : ℝ) * Real.arsinh (1 / e))

/-- `b = cosh(1/M * asinh(1/e))` (filter_core.py lines 44, 46, 70). -/
noncomputable def chebB (e : ℝ) (M : ℕ) : ℝ :=
  Real.cosh (1 / (M : ℝ) * Real.arsinh (1 / e))

/-- `angle = (2*i + 1) * pi / (2*M)` (filter_core.py lines 52, 74). -/
noncomputable def chebAngle (M k : ℕ) : ℝ :=
  (2 * (k : ℝ) + 1) * Real.pi / (2 * (M : ℝ))

/-- `pole_k = -a*sin(angle) + I*b*cos(angle)` (filter_core.py lines 53-54,
75), as a complex number with the stated real and imaginary parts. -/
noncomputable def chebPole (e : ℝ) (M k : ℕ) : ℂ :=
  ⟨-(chebA e M) * Real.sin (chebAngle M k), chebB e M * Real.cos (chebAngle M k)⟩

/-- The closed-form pole array of size `M` for ripple parameter `e`
(filter_core.py lines 48-54 and 72-75). -/
noncomputable def chebPoles (e : ℝ) (M : ℕ) : List ℂ :=
  (List.range M).map (chebPole e M)

/-- One pass of `ChebyshevCore._poles_to_poly`'s inner loop
(filter_core.py lines 179-183): multiply the coefficient list by
`(s - pole)`. -/
noncomputable def mulByRoot (p : List ℂ) (r : ℂ) : List ℂ :=
  List.zipWith (fun a b => a - b) (p ++ [0]) (((0 : ℂ) :: p).map (fun x => r * x))

/-- The per-coefficient imaginary-noise snap used by `_poles_to_poly` and
`_clean_coeffs` (filter_core.py lines 184-185, 192-197). -/
noncomputable def snapReal (c : ℂ) : ℂ :=
  if |c.im| < 1 / 10 ^ 10 then (c.re : ℂ) else c

/-- `ChebyshevCore._poles_to_poly` (filter_core.py lines 174-185). -/
noncomputable def polesToPoly (poles : List ℂ) : List ℂ :=
  (poles.foldl mulByRoot [1]).map snapReal

/-- `ChebyshevCore._clean_coeffs` on a coefficient list
(filter_core.py lines 187-200). -/
noncomputable def cleanCoeffs (l : List ℂ) : List ℂ := l.map snapReal

/-- `np.convolve` on descending-power coefficient lists. -/
noncomputable def convolve (a b : List ℂ) : List ℂ :=
  (List.range (a.length + b.length - 1)).map
    (fun n => ((List.range (n + 1)).map (fun i => a.getD i 0 * b.getD (n - i) 0)).sum)

/-- The design session created by `ChebyshevCore.__init__`
(filter_core.py lines 13-38). -/
structure ChebyshevCore where
  N : ℕ
  e1 : ℝ
  e2 : ℝ
  Rg_denorm : ℝ
  RL_denorm : ℝ

/-- `self.e12 = e1 * e2` (filter_core.py line 17). -/
noncomputable def ChebyshevCore.e12 (c : ChebyshevCore) : ℝ := c.e1 * c.e2

/-- `self.Rg = Rg_denorm / RL_denorm` (filter_core.py line 20). -/
noncomputable def ChebyshevCore.Rg (c : ChebyshevCore) : ℝ :=
  c.Rg_denorm / c.RL_denorm

/-- Everything `ChebyshevCore.design_with_dc_drop` computes and stores:
the three pole arrays and the two (numerator, denominator) transfer
functions. -/
structure DesignResult where
  pk11 : List ℂ
  pk12 : List ℂ
  pk2 : List ℂ
  F1 : List ℂ × List ℂ
  F2 : List ℂ × List ℂ

/-- `ChebyshevCore.design_with_dc_drop` (filter_core.py lines 40-86). -/
noncomputable def ChebyshevCore.designWithDcDrop (c : ChebyshevCore) : DesignResult :=
  let pk11 := chebPoles c.e1 c.N
  let pk12 := chebPoles c.e2 c.N
  let pk2 := chebPoles c.e12 (2 * c.N)
  let NUM11 : ℂ := 1 / ((c.e1 : ℂ) * 2 ^ (c.N - 1))
  let NUM12 : ℂ := 1 / ((c.e2 : ℂ) * 2 ^ (c.N - 1))
  let DEN11 := polesToPoly pk11
  let DEN12 := polesToPoly pk12
  let NUM1 := convolve [NUM11] [NUM12]
  let DEN1 := convolve DEN11 DEN12
  let NUM2 : ℂ := 1 / ((c.e12 : ℂ) * 2 ^ (2 * c.N - 1))
  let DEN2 := polesToPoly pk2
  { pk11 := pk11
    pk12 := pk12
    pk2 := pk2
    F1 := (cleanCoeffs NUM1, cleanCoeffs DEN1)
    F2 := (cleanCoeffs [NUM2], cleanCoeffs DEN2) }

/-- Modelled from the spec: the claimed closed-form pole
`-a·sin((2k+1)π/(2M)) + i·b·cos((2k+1)π/(2M))` with
`a = sinh(asinh(1/e)/M)` and `b = cosh(asinh(1/e)/M)`, written from the
spec's words for comparison with the source's `chebPole`. -/
noncomputable def specChebPole (e : ℝ) (M k : ℕ) : ℂ :=
  (↑(-(Real.sinh (Real.arsinh (1 / e) / (M : ℝ))) *
      Real.sin ((2 * (k : ℝ) + 1) * Real.pi / (2 * (M : ℝ)))) : ℂ) +
    (↑(Real.cosh (Real.arsinh (1 / e) / (M : ℝ)) *
        Real.cos ((2 * (k : ℝ) + 1) * Real.pi / (2 * (M : ℝ)))) : ℂ) * Complex.I

/-- C2: the canonical 3-element low-pass ladder round trip.  The claim says
the extractor applied to numerator [1, 1, 2, 1] and denominator [1, 1, 1]
reproduces the element values {1, 1, 1} (inductors [1, 1], capacitors [1]).
Evaluating the source's algorithm at that input instead yields inductors
[0] and capacitors [1]: the initial step divides by the prepended zero of
`den_s`, takes its `else 0` branch, appends 0 and discards the numerator,
so the round trip fails. -/
theorem cauer_canonical_ladder_eval :
    cauerSynthesis [1, 1, 2, 1] [1, 1, 1] = ([0], [1]) ∧
      cauerSynthesis [1, 1, 2, 1] [1, 1, 1] ≠ ([1, 1], [1]) := by
  constructor
  · with_unfolding_all decide
  · with_unfolding_all decide

/-- C3: the polynomial-construction helper at the orders the DC-drop-free
path requires.  The claim says `_generate_chebyshev_poly` returns the
recurrence Chebyshev polynomial for every order the path needs, without
failing.  For the smallest even `N = 2` the path needs order `2N = 4`, and
the source's power-of-two prefill loop reads `T[2]` from the two-element
list `[T0, T1]`, an `IndexError` (here `none`), while the recurrence value
is T_4(w) = 8w^4 - 8w^2 + 1. -/
theorem generate_chebyshev_poly_order_four_fails :
    generateChebyshevPoly 4 = none ∧
      generateChebyshevPoly 2 = some (fun w => 2 * w ^ 2 - 1) ∧
      chebT 4 = (fun w => 8 * w ^ 4 - 8 * w ^ 2 + 1) := by
  refine ⟨rfl, rfl, ?_⟩
  funext w
  simp only [chebT]
  ring

/-- C5: the leading-zero trimmer on degenerate inputs.  The claim says the
trimmer returns [0] when every coefficient vanishes and never returns an
empty sequence.  Evaluating the source: on the all-zero list [0, 0] it
returns [0, 0] unchanged (the `[0]` fallback is dead code because
`start_idx` stays 0), and on the empty list it returns the empty list. -/
theorem remove_leading_zeros_all_zero_eval :
    removeLeadingZeros [0, 0] = [0, 0] ∧
      removeLeadingZeros [] = [] ∧
      removeLeadingZeros [0, 0, 1] = [1] := by
  refine ⟨?_, ?_, ?_⟩ <;> with_unfolding_all decide

/-- Pointwise subtraction of `0 * x` is the identity (the shape produced by
the initial Cauer step once its division yields `k = 0`). -/
theorem zipWith_sub_zero_mul (l : List ℚ) :
    List.zipWith (fun a b => a - b) l (List.replicate l.length (0 : ℚ)) = l := by
  induction l with
  | nil => rfl
  | cons a t ih => simp [List.replicate_succ, ih]

/-- C4 counterexample: on the canonical impedance the initial step has
`len(P) = len(Q) + 1` and the leading entry of `Q_s` (the prepended zero)
is 0, yet the extractor does not fail with the empty result pair as the
claim states: it returns nonempty lists, having appended `k0 = 0`. -/
theorem cauer_initial_step_no_failure_cex :
    ((0 : ℚ) :: [(1 : ℚ), 1, 1]).headI = 0 ∧
      [(1 : ℚ), 1, 2, 1].length = [(1 : ℚ), 1, 1].length + 1 ∧
      cauerSynthesis [1, 1, 2, 1] [1, 1, 1] ≠ ([], []) ∧
      cauerKn [1, 1, 2, 1] [1, 1, 1] = some [0, 1] := by
  refine ⟨rfl, rfl, ?_, ?_⟩ <;> with_unfolding_all decide

/-- C4 (amended): in the initial step with `len(P) = len(Q) + 1`, the
leading entry of `Q_s` is the prepended zero, so the guarded division takes
its `else` branch and the first appended value is always `k0 = 0` (not
`leading(P)/leading(Q_s)`); the step fails only when `k0 < 0`, hence never,
and the state becomes `P ← Q`, `Q ← trim(Q)`. -/
theorem cauer_initial_step_amended (num den : List ℚ)
    (h : num.length = den.length + 1) :
    initialStep num den = some (den, removeLeadingZeros den, [0]) := by
  unfold initialStep
  have hlen : num.length = ((0 : ℚ) :: den).length := by simp [h]
  rw [if_pos hlen]
  simp [List.headI_cons, List.tail_cons, zipWith_sub_zero_mul]

/-- C4 witness: the amended initial-step behaviour at the canonical
impedance input. -/
theorem cauer_initial_step_amended_witness :
    [(1 : ℚ), 1, 2, 1].length = [(1 : ℚ), 1, 1].length + 1 ∧
      initialStep [1, 1, 2, 1] [1, 1, 1] =
        some ([1, 1, 1], removeLeadingZeros [1, 1, 1], [0]) :=
  ⟨rfl, cauer_initial_step_amended [1, 1, 2, 1] [1, 1, 1] rfl⟩

/-- Every value placed in either partition list is non-negative: negative
coefficients are skipped by the guard at cauer_synthesis.py lines 100-102. -/
theorem partitionLC_nonneg (kn : List ℚ) : ∀ (i : ℕ) (x : ℚ),
    (x ∈ (partitionLC i kn).1 → 0 ≤ x) ∧ (x ∈ (partitionLC i kn).2 → 0 ≤ x) := by
  induction kn with
  | nil => intro i x; simp [partitionLC]
  | cons k rest ih =>
    intro i x
    by_cases hk : k < 0
    · simpa [partitionLC, hk] using ih (i + 1) x
    · by_cases hp : i % 2 = 0
      · refine ⟨fun hx => ?_, fun hx => ?_⟩
        · rcases List.mem_cons.mp (by simpa [partitionLC, hk, hp] using hx) with rfl | hx'
          · exact le_of_not_lt hk
          · exact (ih (i + 1) x).1 hx'
        · exact (ih (i + 1) x).2 (by simpa [partitionLC, hk, hp] using hx)
      · refine ⟨fun hx => ?_, fun hx => ?_⟩
        · exact (ih (i + 1) x).1 (by simpa [partitionLC, hk, hp] using hx)
        · rcases List.mem_cons.mp (by simpa [partitionLC, hk, hp] using hx) with rfl | hx'
          · exact le_of_not_lt hk
          · exact (ih (i + 1) x).2 hx'

/-- C6: for every impedance input, the inductor and capacitor lists the
Cauer extractor returns contain no negative value — any negative
accumulated coefficient is skipped during the parity partition and the
remaining coefficients are still partitioned. -/
theorem cauer_output_nonneg (num den : List ℚ) (x : ℚ) :
    (x ∈ (cauerSynthesis num den).1 → 0 ≤ x) ∧
      (x ∈ (cauerSynthesis num den).2 → 0 ≤ x) := by
  unfold cauerSynthesis
  cases h : cauerKn num den with
  | none => simp
  | some kn => exact partitionLC_nonneg kn 0 x

/-- C6 witness: the non-negativity facts at the canonical input, whose
inductor list is `[0]`. -/
theorem cauer_output_nonneg_witness :
    (0 : ℚ) ∈ (cauerSynthesis [1, 1, 2, 1] [1, 1, 1]).1 ∧ (0 : ℚ) ≤ 0 :=
  ⟨by with_unfolding_all decide,
   (cauer_output_nonneg [1, 1, 2, 1] [1, 1, 1] 0).1 (by with_unfolding_all decide)⟩

/-- C7 counterexample: with `RL_denorm = 50` (the spec's boundary scenario)
and the canonical impedance, the extractor's capacitor list is `[1]`, not
the claimed coefficient-divided-by-`RL_denorm` list `[1/50]`; the source
applies no denormalization at all. -/
theorem cauer_no_denormalization_cex :
    cauerKn [1, 1, 2, 1] [1, 1, 1] = some [0, 1] ∧
      partitionLCDenormSpec 50 [0, 1] = ([0], [1 / 50]) ∧
      cauerSynthesis [1, 1, 2, 1] [1, 1, 1] ≠ partitionLCDenormSpec 50 [0, 1] := by
  refine ⟨?_, ?_, ?_⟩ <;> with_unfolding_all decide

/-- C7 (amended): the extractor returns the raw parity partition of the
accumulated continued-fraction coefficients, with no `RL_denorm` scaling —
equivalently, the claimed denormalized relation holds only with factor 1. -/
theorem cauer_partition_raw_values (num den kn : List ℚ)
    (h : cauerKn num den = some kn) :
    cauerSynthesis num den = partitionLCDenormSpec 1 kn := by
  unfold cauerSynthesis partitionLCDenormSpec
  rw [h]
  simp

/-- C7 witness: the amended relation at the canonical impedance input. -/
theorem cauer_partition_raw_values_witness :
    cauerKn [1, 1, 2, 1] [1, 1, 1] = some [0, 1] ∧
      cauerSynthesis [1, 1, 2, 1] [1, 1, 1] = partitionLCDenormSpec 1 [0, 1] :=
  ⟨by with_unfolding_all decide,
   cauer_partition_raw_values [1, 1, 2, 1] [1, 1, 1] [0, 1]
     (by with_unfolding_all decide)⟩

/-- C8: for every odd `N` the design is routed to the closed-form
"with DC drop" path regardless of the requested DC-drop flag, and the odd-N
guard of `design_without_dc_drop` raises (the spec's DomainError, a
`ValueError` in the source). -/
theorem odd_n_routing_and_guard (dc : ℤ) (N : ℕ) (hodd : N % 2 = 1) :
    routeDesign dc N = DesignPath.withDcDrop ∧
      withoutDcDropGuard N = Except.error FilterError.domainError := by
  constructor
  · unfold routeDesign
    rw [if_pos (Or.inr (by omega))]
  · unfold withoutDcDropGuard
    rw [if_pos (by omega)]

/-- C8 witness: `N = 3` with the DC-drop-free preference (`dc = 1`) routes
to the closed-form path and the explicit guard rejects `N = 3`. -/
theorem odd_n_routing_and_guard_witness :
    3 % 2 = 1 ∧
      (routeDesign 1 3 = DesignPath.withDcDrop ∧
        withoutDcDropGuard 3 = Except.error FilterError.domainError) :=
  ⟨rfl, odd_n_routing_and_guard 1 3 rfl⟩

/-- C9 counterexample: a solver output with a single left-half-plane root
when two are required.  The selection step produces the truncated
single-element pole set and the computation proceeds; no
InsufficientRootsError exists on this path. -/
theorem select_lhp_truncation_cex :
    selectLHPoles [((1 : ℚ), 0), ((-1 : ℚ), 0)] 2 = [((-1 : ℚ), 0)] ∧
      (selectLHPoles [((1 : ℚ), 0), ((-1 : ℚ), 0)] 2).length < 2 := by
  constructor <;> with_unfolding_all decide

/-- C9 (amended): the "without DC drop" root selection silently truncates —
the pole set is the left-half-plane filter of the solver output sliced to
at most `M` elements, so its size is `min M (#qualifying roots)` and no
error is raised when fewer than `M` roots qualify. -/
theorem select_lhp_length (roots : List (ℚ × ℚ)) (M : ℕ) :
    (selectLHPoles roots M).length =
      min M (roots.filter (fun p => decide (p.1 < 0))).length := by
  unfold selectLHPoles
  exact List.length_take M _

/-- C10: two design sessions with the same `N`, `e1`, `e2` but arbitrary
(possibly different) port resistances `Rg_denorm`, `RL_denorm` produce
identical `design_with_dc_drop` outputs: pole arrays `pk11`, `pk12`, `pk2`
and transfer functions `F1`, `F2` never read the port resistances. -/
theorem design_independent_of_port_resistances (N : ℕ)
    (e1 e2 Rg RL Rg' RL' : ℝ) :
    (ChebyshevCore.mk N e1 e2 Rg RL).designWithDcDrop =
      (ChebyshevCore.mk N e1 e2 Rg' RL').designWithDcDrop := rfl

/-- The closed-form factor `a = sinh(1/M * asinh(1/e))` is positive for a
positive ripple parameter and a nonzero pole count. -/
theorem chebA_pos (e : ℝ) (M : ℕ) (he : 0 < e) (hM : 0 < M) : 0 < chebA e M := by
  unfold chebA
  rw [Real.sinh_pos_iff]
  have hM' : (0 : ℝ) < (M : ℝ) := by exact_mod_cast hM
  have h1 : 0 < Real.arsinh (1 / e) := Real.arsinh_pos_iff.mpr (by positivity)
  exact mul_pos (one_div_pos.mpr hM') h1

/-- The pole angle `(2k+1)π/(2M)` is positive. -/
theorem chebAngle_pos (M k : ℕ) (hM : 0 < M) : 0 < chebAngle M k := by
  unfold chebAngle
  have hM' : (0 : ℝ) < (M : ℝ) := by exact_mod_cast hM
  have h1 : (0 : ℝ) < 2 * (k : ℝ) + 1 := by positivity
  exact div_pos (mul_pos h1 Real.pi_pos) (by linarith)

/-- The pole angle `(2k+1)π/(2M)` is below π for `k < M`. -/
theorem chebAngle_lt_pi (M k : ℕ) (hk : k < M) : chebAngle M k < Real.pi := by
  unfold chebAngle
  have hM' : (0 : ℝ) < (M : ℝ) := by
    exact_mod_cast lt_of_le_of_lt (Nat.zero_le k) hk
  rw [div_lt_iff (by linarith : (0 : ℝ) < 2 * (M : ℝ))]
  have h2 : 2 * (k : ℝ) + 1 < 2 * (M : ℝ) := by
    have hn : 2 * k + 1 < 2 * M := by omega
    exact_mod_cast hn
  calc (2 * (k : ℝ) + 1) * Real.pi
      < (2 * (M : ℝ)) * Real.pi := mul_lt_mul_of_pos_right h2 Real.pi_pos
    _ = Real.pi * (2 * (M : ℝ)) := mul_comm _ _

/-- Every closed-form pole has strictly negative real part. -/
theorem chebPole_re_neg (e : ℝ) (M k : ℕ) (he : 0 < e) (hk : k < M) :
    (chebPole e M k).re < 0 := by
  have hM : 0 < M := lt_of_le_of_lt (Nat.zero_le k) hk
  have ha := chebA_pos e M he hM
  have hs := Real.sin_pos_of_pos_of_lt_pi (chebAngle_pos M k hM) (chebAngle_lt_pi M k hk)
  show -(chebA e M) * Real.sin (chebAngle M k) < 0
  rw [neg_mul]
  linarith [mul_pos ha hs]

/-- The closed-form pole array has exactly `M` entries. -/
theorem chebPoles_length (e : ℝ) (M : ℕ) : (chebPoles e M).length = M := by
  simp [chebPoles]

/-- The `k`-th entry of the closed-form pole array. -/
theorem chebPoles_get? (e : ℝ) (M k : ℕ) (hk : k < M) :
    (chebPoles e M).get? k = some (chebPole e M k) := by
  unfold chebPoles
  rw [List.get?_map, List.get?_range hk]
  rfl

/-- The source's pole expression agrees with the spec's formula. -/
theorem chebPole_eq_spec (e : ℝ) (M k : ℕ) : chebPole e M k = specChebPole e M k := by
  unfold specChebPole
  rw [← Complex.mk_eq_add_mul_I]
  unfold chebPole chebA chebB chebAngle
  simp only [one_div_mul_eq_div]

/-- All members of the closed-form pole array have negative real part. -/
theorem chebPoles_re_neg (e : ℝ) (M : ℕ) (he : 0 < e) :
    ∀ p ∈ chebPoles e M, p.re < 0 := by
  intro p hp
  unfold chebPoles at hp
  rcases List.mem_map.mp hp with ⟨k, hk, rfl⟩
  exact chebPole_re_neg e M k he (List.mem_range.mp hk)

/-- C1: for every `N ≥ 2` and positive `e1`, `e2` (and any port
resistances), `design_with_dc_drop` produces pole arrays of size exactly
`N` for F11 (ripple `e1`) and F12 (ripple `e2`) and size exactly `2N` for
F2 (ripple `e12 = e1*e2`); the `k`-th pole of a size-`M` set with ripple
`e` is `-a·sin((2k+1)π/(2M)) + i·b·cos((2k+1)π/(2M))` with
`a = sinh(asinh(1/e)/M)`, `b = cosh(asinh(1/e)/M)`; and every pole has
strictly negative real part. -/
theorem design_with_dc_drop_pole_sets (N : ℕ) (e1 e2 Rg RL : ℝ)
    (_hN : 2 ≤ N) (he1 : 0 < e1) (he2 : 0 < e2) :
    ((ChebyshevCore.mk N e1 e2 Rg RL).designWithDcDrop.pk11.length = N ∧
      (ChebyshevCore.mk N e1 e2 Rg RL).designWithDcDrop.pk12.length = N ∧
      (ChebyshevCore.mk N e1 e2 Rg RL).designWithDcDrop.pk2.length = 2 * N) ∧
    ((∀ k, k < N →
        (ChebyshevCore.mk N e1 e2 Rg RL).designWithDcDrop.pk11.get? k =
          some (specChebPole e1 N k)) ∧
      (∀ k, k < N →
        (ChebyshevCore.mk N e1 e2 Rg RL).designWithDcDrop.pk12.get? k =
          some (specChebPole e2 N k)) ∧
      (∀ k, k < 2 * N →
        (ChebyshevCore.mk N e1 e2 Rg RL).designWithDcDrop.pk2.get? k =
          some (specChebPole (e1 * e2) (2 * N) k))) ∧
    ((∀ p ∈ (ChebyshevCore.mk N e1 e2 Rg RL).designWithDcDrop.pk11, p.re < 0) ∧
      (∀ p ∈ (ChebyshevCore.mk N e1 e2 Rg RL).designWithDcDrop.pk12, p.re < 0) ∧
      (∀ p ∈ (ChebyshevCore.mk N e1 e2 Rg RL).designWithDcDrop.pk2, p.re < 0)) := by
  have hpk11 : (ChebyshevCore.mk N e1 e2 Rg RL).designWithDcDrop.pk11 =
      chebPoles e1 N := rfl
  have hpk12 : (ChebyshevCore.mk N e1 e2 Rg RL).designWithDcDrop.pk12 =
      chebPoles e2 N := rfl
  have hpk2 : (ChebyshevCore.mk N e1 e2 Rg RL).designWithDcDrop.pk2 =
      chebPoles (e1 * e2) (2 * N) := rfl
  refine ⟨⟨?_, ?_, ?_⟩, ⟨?_, ?_, ?_⟩, ?_, ?_, ?_⟩
  · rw [hpk11, chebPoles_length]
  · rw [hpk12, chebPoles_length]
  · rw [hpk2, chebPoles_length]
  · intro k hk
    rw [hpk11, chebPoles_get? e1 N k hk, chebPole_eq_spec]
  · intro k hk
    rw [hpk12, chebPoles_get? e2 N k hk, chebPole_eq_spec]
  · intro k hk
    rw [hpk2, chebPoles_get? (e1 * e2) (2 * N) k hk, chebPole_eq_spec]
  · rw [hpk11]; exact chebPoles_re_neg e1 N he1
  · rw [hpk12]; exact chebPoles_re_neg e2 N he2
  · rw [hpk2]; exact chebPoles_re_neg (e1 * e2) (2 * N) (mul_pos he1 he2)

/-- C1 witness: the boundary scenario `N = 2`, `e1 = e2 = 1`,
`Rg_denorm = RL_denorm = 50`: both F11 and F12 pole sets have length 2 and
every F11 pole has strictly negative real part. -/
theorem design_with_dc_drop_pole_sets_witness :
    (2 ≤ 2 ∧ (0 : ℝ) < 1) ∧
      ((ChebyshevCore.mk 2 (1 : ℝ) 1 50 50).designWithDcDrop.pk11.length = 2 ∧
        ∀ p ∈ (ChebyshevCore.mk 2 (1 : ℝ) 1 50 50).designWithDcDrop.pk11, p.re < 0) := by
  refine ⟨⟨le_refl 2, one_pos⟩, ?_, ?_⟩
  · exact (design_with_dc_drop_pole_sets 2 1 1 50 50 (le_refl 2) one_pos one_pos).1.1
  · exact (design_with_dc_drop_pole_sets 2 1 1 50 50 (le_refl 2) one_pos one_pos).2.2.1
